import Mathlib

/-!
Verification development for the CUDA debug-session mediator
(src/debugger/cudaGdbSession.ts).

The TypeScript source is shallowly embedded: pure computations become Lean
functions, stateful methods become explicit state-passing functions, and every
interaction with the external backend (cuda-gdb machine-interface commands) is
mediated by an oracle argument that supplies the backend's answers.  The
definitions follow the structure of the source; where the source uses a
JavaScript idiom (truthiness, `??`, `Map` semantics, `Number.parseInt`) a small
helper with the JavaScript semantics is defined first.
-/

namespace CudaGdb

/-- Result of the JavaScript nullish-coalescing operator a ?? b on optionals. -/
def jsNullish {α : Type} (a b : Option α) : Option α :=
  match a with
  | some v => some v
  | none => b

@[simp] theorem jsNullish_some {α : Type} (v : α) (b : Option α) :
    jsNullish (some v) b = some v := rfl

@[simp] theorem jsNullish_none {α : Type} (b : Option α) :
    jsNullish none b = b := rfl

/-- Dimension triple mirroring types.CudaDim: each of the x, y, z components
may be absent (undefined in the source). -/
structure CudaDim where
  x : Option Int := none
  y : Option Int := none
  z : Option Int := none
deriving DecidableEq

/-- Tagged union mirroring types.CudaFocus: software coordinates carry
optional blockIdx/threadIdx dimensions, hardware coordinates carry optional
sm/warp/lane scalars. -/
inductive CudaFocus where
  | software (blockIdx threadIdx : Option CudaDim)
  | hardware (sm warp lane : Option Int)
deriving DecidableEq

/-- Modelled from the spec: utils.equalsCudaFocus (utils.ts is not among the
sources at hand).  The spec fixes focus equality to be structural across all
present fields, so on the model type it is structural equality of the two
optional foci. -/
def equalsCudaFocus (a b : Option CudaFocus) : Bool := a == b

/-- An execution locus as carried in thread-id positions of the source
(number | types.CudaFocus): a host thread id or a device focus. -/
inductive FocusVal where
  | host (threadId : Int)
  | device (focus : CudaFocus)
deriving DecidableEq

/-- types.RealizedFrameReference: a frame id together with the resolved focus.
The frameId is optional to model a null frame id; the focus is optional to
model undefined. -/
structure RealizedFrame where
  frameId : Option Int
  focus : Option FocusVal
deriving DecidableEq

/-- The machine-interface commands that CudaGdbSession.focusOnFrame can place
in a command batch. -/
inductive GdbCommand where
  | cudaFocus (f : CudaFocus)
  | thread (t : Int)
  | frame (i : Int)
deriving DecidableEq

/-- The focus-related state of a CudaGdbSession: the frame last confirmed on
the backend (gdbFocusedFrame), the pseudo-thread's stored focus
(cudaThread.focus) and the frame last selected by the UI (uiFocusedFrame). -/
structure SessionState where
  gdbFocusedFrame : Option RealizedFrame
  cudaThreadFocus : Option CudaFocus
  uiFocusedFrame : Option RealizedFrame
deriving DecidableEq

/-- Outcome of a focusOnFrame run: the final session state, the returned or
thrown result, the list of sendCommands batches actually issued, and the next
unused oracle index. -/
structure FocusRun where
  state : SessionState
  result : Except String Unit
  sent : List (List GdbCommand)
  next : Nat

/-- CudaGdbSession.focusOnFrame.  The oracle assigns to each sendCommands
batch (numbered from k) either none (the batch succeeds) or some message (the
batch throws that error).  The fuel bounds the recursion of the recovery path;
the source recursion terminates because the recovery call finds
gdbFocusedFrame reset to undefined. -/
def focusOnFrame : Nat → Option RealizedFrame → SessionState → (Nat → Option String) → Nat → FocusRun
  | 0, _, st, _, k => ⟨st, .error "fuel exhausted", [], k⟩
  | _ + 1, none, st, _, k => ⟨st, .ok (), [], k⟩
  | fuel + 1, some frame, st, oracle, k =>
    if some frame = st.gdbFocusedFrame then ⟨st, .ok (), [], k⟩
    else
      match jsNullish frame.focus (st.cudaThreadFocus.map FocusVal.device) with
      | none => ⟨st, .ok (), [], k⟩
      | some focus =>
        let cmds : List GdbCommand :=
          if some focus ≠ st.gdbFocusedFrame.bind RealizedFrame.focus then
            (match focus with
              | .device f => [GdbCommand.cudaFocus f]
              | .host t => [GdbCommand.thread t]) ++
            (match frame.frameId with
              | some fid => [GdbCommand.frame fid]
              | none => [])
          else
            match frame.frameId with
            | some fid =>
              if st.gdbFocusedFrame.bind RealizedFrame.frameId ≠ some fid then
                [GdbCommand.frame fid]
              else []
            | none => []
        if cmds = [] then
          ⟨{ st with gdbFocusedFrame := some ⟨frame.frameId, some focus⟩ }, .ok (), [], k⟩
        else
          match oracle k with
          | none =>
            ⟨{ st with gdbFocusedFrame := some ⟨frame.frameId, some focus⟩ }, .ok (),
              [cmds], k + 1⟩
          | some err =>
            let prev := st.gdbFocusedFrame
            let r2 := focusOnFrame fuel prev { st with gdbFocusedFrame := none } oracle (k + 1)
            match r2.result with
            | .ok _ => ⟨r2.state, .error err, cmds :: r2.sent, r2.next⟩
            | .error e2 => ⟨r2.state, .error e2, cmds :: r2.sent, r2.next⟩

/-- focusOnFrame never touches the pseudo-thread's stored focus. -/
theorem focusOnFrame_cudaThreadFocus (fuel : Nat) :
    ∀ (frame : Option RealizedFrame) (st : SessionState) (oracle : Nat → Option String) (k : Nat),
      (focusOnFrame fuel frame st oracle k).state.cudaThreadFocus = st.cudaThreadFocus := by
  induction fuel with
  | zero => intro frame st oracle k; rfl
  | succ n ih =>
    intro frame st oracle k
    cases frame with
    | none => rfl
    | some fr =>
      simp only [focusOnFrame]
      repeat' split
      all_goals simp [ih]

/-- focusOnFrame never touches the UI-selected frame. -/
theorem focusOnFrame_uiFocusedFrame (fuel : Nat) :
    ∀ (frame : Option RealizedFrame) (st : SessionState) (oracle : Nat → Option String) (k : Nat),
      (focusOnFrame fuel frame st oracle k).state.uiFocusedFrame = st.uiFocusedFrame := by
  induction fuel with
  | zero => intro frame st oracle k; rfl
  | succ n ih =>
    intro frame st oracle k
    cases frame with
    | none => rfl
    | some fr =>
      simp only [focusOnFrame]
      repeat' split
      all_goals simp [ih]

/-- C3: when focusOnFrame fails while issuing the focus/frame switch commands,
it reverts gdbFocusedFrame to undefined, attempts exactly one recursive
reapplication of the previous known-good frame (exactly two command batches in
total, so no further recovery attempt ever happens and the recursion
terminates), and re-raises the original error when the recovery pass succeeds;
a failure of the recovery pass propagates instead, leaving gdbFocusedFrame
undefined. -/
theorem focusOnFrame_failure_recovery
    (st : SessionState) (g f : RealizedFrame) (gf ff : FocusVal) (e1 : String)
    (oracle : Nat → Option String)
    (hg : st.gdbFocusedFrame = some g)
    (hgf : g.focus = some gf)
    (hff : f.focus = some ff)
    (hne : ff ≠ gf)
    (h0 : oracle 0 = some e1) :
    (focusOnFrame 3 (some f) st oracle 0).sent.length = 2 ∧
    (oracle 1 = none →
      (focusOnFrame 3 (some f) st oracle 0).result = .error e1 ∧
      (focusOnFrame 3 (some f) st oracle 0).state.gdbFocusedFrame = some ⟨g.frameId, some gf⟩) ∧
    (∀ e2, oracle 1 = some e2 →
      (focusOnFrame 3 (some f) st oracle 0).result = .error e2 ∧
      (focusOnFrame 3 (some f) st oracle 0).state.gdbFocusedFrame = none) := by
  have hfg2 : (some f = st.gdbFocusedFrame) = False := by
    rw [hg]
    apply eq_false
    intro h
    injection h with h
    apply hne
    have h2 : f.focus = g.focus := by rw [h]
    rw [hff, hgf] at h2
    injection h2
  have hne2 : (ff = gf) = False := eq_false hne
  cases h1 : oracle 1 with
  | none =>
    cases ff <;> cases gf <;>
      simp_all [focusOnFrame, jsNullish]
  | some e2 =>
    cases ff <;> cases gf <;>
      simp_all [focusOnFrame, jsNullish]

/-- Witness for C3: a concrete failing focus switch from host thread 5 to
host thread 7 where the recovery pass succeeds. -/
theorem focusOnFrame_failure_recovery_witness :
    (focusOnFrame 3 (some ⟨some 1, some (.host 7)⟩)
        ⟨some ⟨some 0, some (.host 5)⟩, none, none⟩
        (fun i => if i = 0 then some "err1" else none) 0).sent.length = 2 ∧
    (focusOnFrame 3 (some ⟨some 1, some (.host 7)⟩)
        ⟨some ⟨some 0, some (.host 5)⟩, none, none⟩
        (fun i => if i = 0 then some "err1" else none) 0).result = Except.error "err1" ∧
    (focusOnFrame 3 (some ⟨some 1, some (.host 7)⟩)
        ⟨some ⟨some 0, some (.host 5)⟩, none, none⟩
        (fun i => if i = 0 then some "err1" else none) 0).state.gdbFocusedFrame =
      some ⟨some 0, some (.host 5)⟩ := by
  have h := focusOnFrame_failure_recovery
    ⟨some ⟨some 0, some (.host 5)⟩, none, none⟩ ⟨some 0, some (.host 5)⟩
    ⟨some 1, some (.host 7)⟩ (.host 5) (.host 7) "err1"
    (fun i => if i = 0 then some "err1" else none) rfl rfl rfl (by decide) rfl
  exact ⟨h.1, (h.2.1 rfl).1, (h.2.1 rfl).2⟩

/-- VariableObjectStore.isCudaFocus, applied to an optional thread-id
position: true exactly when the value is a device focus object (the source
probes for a defined type member). -/
def isCudaFocus : Option FocusVal → Bool
  | some (.device _) => true
  | _ => false

/-- Discriminator mirroring the source's focus.type string comparison. -/
def focusTypeIsSoftware : CudaFocus → Bool
  | .software _ _ => true
  | .hardware _ _ _ => false

/-- The dimension-wise coercion helper defined inside
CudaGdbSession.changeCudaFocusRequest: each component is
dim1?.c ?? dim2?.c ?? 0. -/
def coerceDim (dim1 dim2 : Option CudaDim) : CudaDim :=
  let x : Int := (jsNullish (dim1.bind CudaDim.x) (dim2.bind CudaDim.x)).getD 0
  let y : Int := (jsNullish (dim1.bind CudaDim.y) (dim2.bind CudaDim.y)).getD 0
  let z : Int := (jsNullish (dim1.bind CudaDim.z) (dim2.bind CudaDim.z)).getD 0
  ⟨some x, some y, some z⟩

/-- Protocol events emitted towards the IDE that the focus-change request can
produce. -/
inductive SessionEvent where
  | changedCudaFocus (focus : Option CudaFocus)
  | invalidatedAreas
  | stopped
deriving DecidableEq

/-- Outcome of a changeCudaFocusRequest run: final state, the response sent
(sendErrorResponse message or sendResponse body focus), emitted events, and
an error escaping the catch-block recovery, if any. -/
structure ChangeFocusRun where
  state : SessionState
  response : Except String (Option CudaFocus)
  events : List SessionEvent
  escaped : Option String

/-- Tail of the success path of changeCudaFocusRequest once newFocus has been
computed: setFocus on the pseudo-thread, conditional uiFocusedFrame rewrite,
response body, ChangedCudaFocusEvent, invalidations. -/
def applyNewFocus (st1 : SessionState) (newFocus : CudaFocus) : ChangeFocusRun :=
  let st2 := { st1 with cudaThreadFocus := some newFocus }
  let st3 :=
    if st2.uiFocusedFrame.isSome ∧ isCudaFocus (st2.uiFocusedFrame.bind RealizedFrame.focus) then
      { st2 with uiFocusedFrame := some ⟨some 0, some (.device newFocus)⟩ }
    else st2
  ⟨st3, .ok (some newFocus),
    [.changedCudaFocus (some newFocus), .invalidatedAreas, .stopped], none⟩

/-- CudaGdbSession.changeCudaFocusRequest.  The oracle plays the backend role
for the command batches sent by the inner focusOnFrame calls. -/
def changeCudaFocusRequest (st : SessionState) (focus : CudaFocus)
    (oracle : Nat → Option String) : ChangeFocusRun :=
  let r1 := focusOnFrame 3 (some ⟨some 0, some (.device focus)⟩) st oracle 0
  match r1.result with
  | .error e =>
    let r2 := focusOnFrame 3 r1.state.uiFocusedFrame r1.state oracle r1.next
    ⟨r2.state, .error e, [],
      match r2.result with
      | .error e2 => some e2
      | .ok _ => none⟩
  | .ok _ =>
    match focus, r1.state.cudaThreadFocus with
    | .software b t, some (.software cb ct) =>
      applyNewFocus r1.state (.software (some (coerceDim b cb)) (some (coerceDim t ct)))
    | .hardware s w l, some (.hardware cs cw cl) =>
      applyNewFocus r1.state
        (.hardware (some ((jsNullish s cs).getD 0)) (some ((jsNullish w cw).getD 0))
          (some ((jsNullish l cl).getD 0)))
    | _, _ =>
      ⟨r1.state,
        .error "Mixing hardware and software coordinates to change focus is not supported.",
        [], none⟩

/-- Example software focus at block (0,0,0), thread (0,0,0). -/
def softFocusEx : CudaFocus :=
  .software (some ⟨some 0, some 0, some 0⟩) (some ⟨some 0, some 0, some 0⟩)

/-- Example hardware focus sm 1, warp 2, lane 3. -/
def hwFocusEx : CudaFocus := .hardware (some 1) (some 2) (some 3)

/-- Session state in which the pseudo-thread and the backend both sit on
softFocusEx. -/
def mixedFocusState : SessionState :=
  ⟨some ⟨some 0, some (.device softFocusEx)⟩, some softFocusEx, none⟩

/-- Counterexample for C5: a hardware focus-change request arriving while the
current focus is a software focus yields the mixing error response, yet the
backend-side focus (gdbFocusedFrame) HAS been switched to the requested focus
by the focusOnThread call that precedes the mixing check, so the prior
backend-side focus is not left unchanged. -/
theorem changeCudaFocus_mixed_counterexample :
    (changeCudaFocusRequest mixedFocusState hwFocusEx (fun _ => none)).response =
      .error "Mixing hardware and software coordinates to change focus is not supported." ∧
    (changeCudaFocusRequest mixedFocusState hwFocusEx (fun _ => none)).state.gdbFocusedFrame =
      some ⟨some 0, some (.device hwFocusEx)⟩ ∧
    some (⟨some 0, some (.device hwFocusEx)⟩ : RealizedFrame) ≠ mixedFocusState.gdbFocusedFrame := by
  refine ⟨rfl, rfl, ?_⟩
  decide

/-- C5 (amended): a focus-change request whose variant differs from the
current pseudo-thread focus variant always yields an error response and
leaves the pseudo-thread's stored focus unchanged (the backend-side focus,
however, may already have been switched). -/
theorem changeCudaFocus_mixed_rejected
    (st : SessionState) (cur req : CudaFocus) (oracle : Nat → Option String)
    (hcur : st.cudaThreadFocus = some cur)
    (hmix : focusTypeIsSoftware req ≠ focusTypeIsSoftware cur) :
    (∃ msg, (changeCudaFocusRequest st req oracle).response = .error msg) ∧
    (changeCudaFocusRequest st req oracle).state.cudaThreadFocus = st.cudaThreadFocus := by
  have hpres1 := focusOnFrame_cudaThreadFocus 3
    (some ⟨some 0, some (.device req)⟩) st oracle 0
  simp only [changeCudaFocusRequest]
  cases hr : (focusOnFrame 3 (some ⟨some 0, some (.device req)⟩) st oracle 0).result with
  | error e =>
    have hpres2 := focusOnFrame_cudaThreadFocus 3
      (focusOnFrame 3 (some ⟨some 0, some (.device req)⟩) st oracle 0).state.uiFocusedFrame
      (focusOnFrame 3 (some ⟨some 0, some (.device req)⟩) st oracle 0).state oracle
      (focusOnFrame 3 (some ⟨some 0, some (.device req)⟩) st oracle 0).next
    simp only [hr]
    exact ⟨⟨e, rfl⟩, by rw [hpres2, hpres1]⟩
  | ok _ =>
    simp only [hr, hpres1, hcur]
    cases req <;> cases cur <;> simp_all [focusTypeIsSoftware]

/-- Witness for C5 (amended): concrete mixed request. -/
theorem changeCudaFocus_mixed_rejected_witness :
    (∃ msg, (changeCudaFocusRequest mixedFocusState hwFocusEx (fun _ => none)).response =
      .error msg) ∧
    (changeCudaFocusRequest mixedFocusState hwFocusEx (fun _ => none)).state.cudaThreadFocus =
      mixedFocusState.cudaThreadFocus :=
  changeCudaFocus_mixed_rejected mixedFocusState softFocusEx hwFocusEx (fun _ => none)
    rfl (by decide)

/-- C6: a software-mode focus-change request merges dimension-wise with the
current software focus: every component of blockIdx and threadIdx is taken
from the request when specified, else inherited from the current focus, else
0; the merged focus is both the response body and the new stored
pseudo-thread focus. -/
theorem changeCudaFocus_software_merge
    (st : SessionState) (b t cb ct : Option CudaDim) (oracle : Nat → Option String)
    (hcur : st.cudaThreadFocus = some (.software cb ct))
    (hok : (focusOnFrame 3 (some ⟨some 0, some (.device (.software b t))⟩) st oracle 0).result =
      .ok ()) :
    (changeCudaFocusRequest st (.software b t) oracle).response =
      .ok (some (.software
        (some ⟨some ((jsNullish (b.bind CudaDim.x) (cb.bind CudaDim.x)).getD 0),
               some ((jsNullish (b.bind CudaDim.y) (cb.bind CudaDim.y)).getD 0),
               some ((jsNullish (b.bind CudaDim.z) (cb.bind CudaDim.z)).getD 0)⟩)
        (some ⟨some ((jsNullish (t.bind CudaDim.x) (ct.bind CudaDim.x)).getD 0),
               some ((jsNullish (t.bind CudaDim.y) (ct.bind CudaDim.y)).getD 0),
               some ((jsNullish (t.bind CudaDim.z) (ct.bind CudaDim.z)).getD 0)⟩))) ∧
    (changeCudaFocusRequest st (.software b t) oracle).state.cudaThreadFocus =
      some (.software
        (some ⟨some ((jsNullish (b.bind CudaDim.x) (cb.bind CudaDim.x)).getD 0),
               some ((jsNullish (b.bind CudaDim.y) (cb.bind CudaDim.y)).getD 0),
               some ((jsNullish (b.bind CudaDim.z) (cb.bind CudaDim.z)).getD 0)⟩)
        (some ⟨some ((jsNullish (t.bind CudaDim.x) (ct.bind CudaDim.x)).getD 0),
               some ((jsNullish (t.bind CudaDim.y) (ct.bind CudaDim.y)).getD 0),
               some ((jsNullish (t.bind CudaDim.z) (ct.bind CudaDim.z)).getD 0)⟩)) := by
  have hpres1 := focusOnFrame_cudaThreadFocus 3
    (some ⟨some 0, some (.device (.software b t))⟩) st oracle 0
  simp only [changeCudaFocusRequest, hok, hpres1, hcur, applyNewFocus, coerceDim]
  refine ⟨trivial, ?_⟩
  split <;> rfl

/-- Session state for the merge witness: pseudo-thread focus at block
(4,5,6), thread (1,2,3); no backend-confirmed frame. -/
def mergeWitnessState : SessionState :=
  ⟨none, some (.software (some ⟨some 4, some 5, some 6⟩) (some ⟨some 1, some 2, some 3⟩)), none⟩

/-- Witness for C6: request sets only threadIdx.x := 9 while the current
focus is block (4,5,6), thread (1,2,3); blockIdx and threadIdx.y, threadIdx.z
are inherited. -/
theorem changeCudaFocus_software_merge_witness :
    (changeCudaFocusRequest mergeWitnessState
        (.software none (some ⟨some 9, none, none⟩)) (fun _ => none)).response =
      .ok (some (.software (some ⟨some 4, some 5, some 6⟩) (some ⟨some 9, some 2, some 3⟩))) ∧
    (changeCudaFocusRequest mergeWitnessState
        (.software none (some ⟨some 9, none, none⟩)) (fun _ => none)).state.cudaThreadFocus =
      some (.software (some ⟨some 4, some 5, some 6⟩) (some ⟨some 9, some 2, some 3⟩)) :=
  changeCudaFocus_software_merge mergeWitnessState
    none (some ⟨some 9, none, none⟩) (some ⟨some 4, some 5, some 6⟩) (some ⟨some 1, some 2, some 3⟩)
    (fun _ => none) rfl rfl

/-- The pseudo CUDA thread: only its optional current focus matters here. -/
structure CudaThreadState where
  focus : Option CudaFocus
deriving DecidableEq

/-- CudaThread.hasFocus: the source getter returns false unconditionally (the
validity check utils.isCudaFocusValid(this.focus) is commented out in the
source). -/
def CudaThread.hasFocus (_t : CudaThreadState) : Bool := false

/-- CudaGdbSession.resetCudaFocus: early-returns unless the pseudo-thread has
focus, otherwise re-issues the focus-select command. -/
def resetCudaFocus (t : CudaThreadState) : List GdbCommand :=
  if CudaThread.hasFocus t = false then []
  else
    match t.focus with
    | some f => [GdbCommand.cudaFocus f]
    | none => []

/-- Outcome of the stopped branch of CudaGdbSession.handleGDBAsync. -/
structure StopRun where
  cudaThread : CudaThreadState
  events : List SessionEvent
  commands : List GdbCommand
  resumed : Bool

/-- The stopped branch of CudaGdbSession.handleGDBAsync.  The payload is the
already-parsed CudaFocus field of the notification: some (blockIdx, threadIdx)
when the stop carries device-location fields (parsing of the coordinate
strings is done by the external utils.parseCudaDim), none otherwise.  The
returned resumed flag is the value stored into varStore.execContext.resumed. -/
def handleStopped (t : CudaThreadState)
    (payload : Option (Option CudaDim × Option CudaDim)) : StopRun :=
  match payload with
  | some (blockIdx, threadIdx) =>
    let focus := CudaFocus.software blockIdx threadIdx
    if ¬ equalsCudaFocus (some focus) t.focus then
      let t2 : CudaThreadState := ⟨some focus⟩
      ⟨t2, [.changedCudaFocus t2.focus], resetCudaFocus t2, true⟩
    else
      ⟨t, [], [], true⟩
  | none =>
    if CudaThread.hasFocus t then
      ⟨⟨none⟩, [.changedCudaFocus none], [], true⟩
    else
      ⟨t, [], [], true⟩

/-- Counterexample for C8: a stop event carrying device-location fields does
set the pseudo-thread focus, yet hasFocus remains false afterwards, so
hasFocus does not reflect the confirmed focus. -/
theorem hasFocus_counterexample :
    (handleStopped ⟨none⟩
        (some (some ⟨some 0, some 0, some 0⟩, some ⟨some 0, some 0, some 0⟩))).cudaThread.focus =
      some (.software (some ⟨some 0, some 0, some 0⟩) (some ⟨some 0, some 0, some 0⟩)) ∧
    CudaThread.hasFocus (handleStopped ⟨none⟩
        (some (some ⟨some 0, some 0, some 0⟩, some ⟨some 0, some 0, some 0⟩))).cudaThread =
      false := ⟨rfl, rfl⟩

/-- C8 (amended): hasFocus is constantly false — vacuously it is true only
for well-formed active device locations, but it never becomes true, not even
after a stop event carrying device-location fields has set a focus. -/
theorem hasFocus_always_false (t : CudaThreadState)
    (payload : Option (Option CudaDim × Option CudaDim)) :
    CudaThread.hasFocus (handleStopped t payload).cudaThread = false ∧
    CudaThread.hasFocus t = false := ⟨rfl, rfl⟩

/-- A task submitted to ExecutionQueue.execute, represented by the outcome
its fn() eventually produces: a resolved value or a thrown error. -/
structure QTask where
  result : Except String Int

/-- Interleaving events for the ExecutionQueue semantics: an execute() call
pushing a task, or one iteration of the drain loop in processQueue (awaiting
the current task and delivering its result). -/
inductive QEvent where
  | enqueue (t : QTask)
  | step

/-- ExecutionQueue state: queue is the live array (tasks paired with their
arrival number), idx the drain loop's position in that array, delivered the
sequence of resolve/reject calls performed so far, and enqueued the ghost
history of every task ever pushed. -/
structure QueueState where
  queue : List (Nat × QTask)
  idx : Nat
  delivered : List (Nat × Except String Int)
  enqueued : List (Nat × QTask)

def qInit : QueueState := ⟨[], 0, [], []⟩

/-- One event of the ExecutionQueue semantics.  enqueue mirrors execute():
push onto the live array (the drain starts when the array was empty, so a
step is enabled exactly when the queue is nonempty).  step mirrors one
iteration of the for-of loop in processQueue: the loop iterates the live
array, so tasks pushed during an await are seen; and when the iterator is
exhausted the loop clears the array (this.queue = []) in the same
synchronous block, which the step models atomically. -/
def qStep (s : QueueState) : QEvent → QueueState
  | .enqueue t =>
    let id := s.enqueued.length
    { s with queue := s.queue ++ [(id, t)], enqueued := s.enqueued ++ [(id, t)] }
  | .step =>
    match s.queue.drop s.idx with
    | [] => s
    | (i, t) :: _ =>
      let delivered := s.delivered ++ [(i, t.result)]
      if s.idx + 1 = s.queue.length then
        { s with queue := [], idx := 0, delivered := delivered }
      else
        { s with idx := s.idx + 1, delivered := delivered }

def qRun (evs : List QEvent) : QueueState := evs.foldl qStep qInit

/-- Invariant tying the live array to the ghost history: the delivered
outcomes are exactly the results of the first delivered-many enqueued tasks
in arrival order, and the part of the live array not yet drained is exactly
the suffix of the history that has not been delivered. -/
def QueueInv (s : QueueState) : Prop :=
  s.delivered = (s.enqueued.take s.delivered.length).map (fun p => (p.1, p.2.result)) ∧
  s.queue.drop s.idx = s.enqueued.drop s.delivered.length ∧
  s.idx ≤ s.queue.length

theorem qInit_inv : QueueInv qInit := ⟨rfl, rfl, Nat.le_refl 0⟩

/-- Dropping one more element past a cons. -/
theorem drop_cons_succ {α : Type} {l : List α} {n : Nat} {a : α} {rest : List α}
    (h : l.drop n = a :: rest) : l.drop (n + 1) = rest := by
  rw [← List.drop_drop 1 n l, h, List.drop_succ_cons, List.drop_zero]

theorem qStep_inv (s : QueueState) (e : QEvent) (h : QueueInv s) : QueueInv (qStep s e) := by
  obtain ⟨h1, h2, h3⟩ := h
  have hdle : s.delivered.length ≤ s.enqueued.length := by
    have hlen := congrArg List.length h1
    simp only [List.length_map, List.length_take] at hlen
    omega
  cases e with
  | enqueue t =>
    simp only [qStep]
    refine ⟨?_, ?_, ?_⟩
    · show s.delivered =
        ((s.enqueued ++ [(s.enqueued.length, t)]).take s.delivered.length).map
          (fun p => (p.1, p.2.result))
      rw [List.take_append_of_le_length hdle]
      exact h1
    · show (s.queue ++ [(s.enqueued.length, t)]).drop s.idx =
        (s.enqueued ++ [(s.enqueued.length, t)]).drop s.delivered.length
      rw [List.drop_append_of_le_length h3, List.drop_append_of_le_length hdle, h2]
    · show s.idx ≤ (s.queue ++ [(s.enqueued.length, t)]).length
      simp only [List.length_append]
      omega
  | step =>
    simp only [qStep]
    split
    · exact ⟨h1, h2, h3⟩
    · next i t tail hq =>
      have hidx : s.idx < s.queue.length := by
        by_contra hcon
        rw [List.drop_eq_nil_of_le (Nat.le_of_not_lt hcon)] at hq
        exact List.noConfusion hq
      have hEdrop : s.enqueued.drop s.delivered.length = (i, t) :: tail := by
        rw [← h2, hq]
      have htake : s.enqueued.take (s.delivered.length + 1) =
          s.enqueued.take s.delivered.length ++ [(i, t)] := by
        rw [List.take_add]
        congr 1
        rw [hEdrop]
        rfl
      have hrest : s.enqueued.drop (s.delivered.length + 1) = tail := drop_cons_succ hEdrop
      have hqrest : s.queue.drop (s.idx + 1) = tail := drop_cons_succ hq
      split
      · next hreset =>
        refine ⟨?_, ?_, Nat.le_refl 0⟩
        · show s.delivered ++ [(i, t.result)] =
            (s.enqueued.take (s.delivered ++ [(i, t.result)]).length).map
              (fun p => (p.1, p.2.result))
          simp only [List.length_append, List.length_cons, List.length_nil]
          rw [htake, List.map_append, ← h1]
          rfl
        · show List.drop 0 ([] : List (Nat × QTask)) =
            s.enqueued.drop (s.delivered ++ [(i, t.result)]).length
          have htail : tail = [] := by
            rw [← hqrest, hreset, List.drop_length]
          simp only [List.length_append, List.length_cons, List.length_nil, List.drop_zero]
          rw [hrest, htail]
      · next hnext =>
        refine ⟨?_, ?_, hidx⟩
        · show s.delivered ++ [(i, t.result)] =
            (s.enqueued.take (s.delivered ++ [(i, t.result)]).length).map
              (fun p => (p.1, p.2.result))
          simp only [List.length_append, List.length_cons, List.length_nil]
          rw [htake, List.map_append, ← h1]
          rfl
        · show s.queue.drop (s.idx + 1) =
            s.enqueued.drop (s.delivered ++ [(i, t.result)]).length
          simp only [List.length_append, List.length_cons, List.length_nil]
          rw [hqrest, hrest]

theorem qRun_inv_aux (evs : List QEvent) :
    ∀ s : QueueState, QueueInv s → QueueInv (evs.foldl qStep s) := by
  induction evs with
  | nil => intro s h; exact h
  | cons e rest ih => intro s h; exact ih (qStep s e) (qStep_inv s e h)

theorem qRun_inv (evs : List QEvent) : QueueInv (qRun evs) :=
  qRun_inv_aux evs qInit qInit_inv

/-- Stepping never changes the ghost history. -/
theorem qStep_enqueued_step (s : QueueState) : (qStep s .step).enqueued = s.enqueued := by
  simp only [qStep]
  split
  · rfl
  · split <;> rfl

/-- Draining: from any state satisfying the invariant, running as many steps
as there are undrained tasks delivers the whole history. -/
theorem qDrain : ∀ (k : Nat) (s : QueueState), QueueInv s →
    k = (s.queue.drop s.idx).length →
    (List.foldl qStep s (List.replicate k .step)).delivered =
      s.enqueued.map (fun p => (p.1, p.2.result)) := by
  intro k
  induction k with
  | zero =>
    intro s h hk
    obtain ⟨h1, h2, _⟩ := h
    have hnil : s.queue.drop s.idx = [] := List.eq_nil_of_length_eq_zero hk.symm
    rw [hnil] at h2
    have hle : s.enqueued.length ≤ s.delivered.length := by
      have := congrArg List.length h2
      simp only [List.length_nil, List.length_drop] at this
      omega
    rw [List.replicate, List.foldl_nil, h1, List.take_of_length_le hle]
  | succ n ih =>
    intro s h hk
    cases hq : s.queue.drop s.idx with
    | nil => rw [hq] at hk; exact absurd hk (by simp)
    | cons p rest =>
      obtain ⟨i, t⟩ := p
      have hs' := qStep_inv s .step h
      have henq := qStep_enqueued_step s
      have hqrest : s.queue.drop (s.idx + 1) = rest := drop_cons_succ hq
      have hrest : ((qStep s .step).queue.drop (qStep s .step).idx).length = n := by
        simp only [qStep, hq]
        by_cases hreset : s.idx + 1 = s.queue.length
        · rw [if_pos hreset]
          have htail : rest = [] := by rw [← hqrest, hreset, List.drop_length]
          rw [hq] at hk
          simp only [List.length_cons, htail, List.length_nil] at hk
          show (List.drop 0 ([] : List (Nat × QTask))).length = n
          simp only [List.drop_zero, List.length_nil]
          omega
        · rw [if_neg hreset]
          show (s.queue.drop (s.idx + 1)).length = n
          rw [hq] at hk
          simp only [List.length_cons] at hk
          rw [hqrest]
          omega
      rw [List.replicate_succ, List.foldl_cons]
      rw [ih (qStep s .step) hs' hrest.symm, henq]

/-- C4: over every interleaving of execute() calls and drain-loop iterations,
the ExecutionQueue delivers results strictly in arrival order, each task
receiving exactly its own result or rejection (a failure rejects only that
task's promise), and finishing the drain after any interleaving delivers the
result of every enqueued task, so a failure never cancels the remaining
queued tasks. -/
theorem executionQueue_sequential_isolated (evs : List QEvent) :
    (qRun evs).delivered =
      ((qRun evs).enqueued.take (qRun evs).delivered.length).map
        (fun p => (p.1, p.2.result)) ∧
    (qRun (evs ++ List.replicate ((qRun evs).queue.length - (qRun evs).idx)
        QEvent.step)).delivered =
      (qRun evs).enqueued.map (fun p => (p.1, p.2.result)) := by
  refine ⟨(qRun_inv evs).1, ?_⟩
  have hfold : qRun (evs ++ List.replicate ((qRun evs).queue.length - (qRun evs).idx)
      QEvent.step) =
      List.foldl qStep (qRun evs)
        (List.replicate ((qRun evs).queue.length - (qRun evs).idx) QEvent.step) := by
    simp [qRun, List.foldl_append]
  rw [hfold]
  exact qDrain _ (qRun evs) (qRun_inv evs) (by simp [List.length_drop])

/-- Kind of a variable object: watch objects from evaluate(), local objects
for stack locals. -/
inductive VarKind where
  | watch
  | «local»
deriving DecidableEq

/-- SimplifiedVarObjType from the source: a materialized variable object. -/
structure SimplifiedVarObjType where
  varname : String
  expression : String
  numchild : String
  value : String
  type : String
  kind : VarKind
deriving DecidableEq

/-- VarUpdateChanges: one entry of the changelist of -var-update (all fields
are strings on the machine interface). -/
structure VarUpdateChanges where
  name : String
  value : String
  in_scope : String
  type_changed : String
  has_more : String
  new_type : String
  new_num_children : String
deriving DecidableEq

/-- One entry of the -stack-list-variables response: a name and a type. -/
structure MIVariableInfo where
  name : String
  type : String
deriving DecidableEq

/-- Response of -var-create. -/
structure MIVarCreateResponse where
  name : String
  numchild : String
  value : String
  type : String
deriving DecidableEq

/-- VariableObjectStore.execContext. -/
structure ExecContext where
  threadId : Option FocusVal := none
  frameId : Option Int := none
  resumed : Option Bool := none
  functionName : Option String := none
deriving DecidableEq

/-- VariableObjectStore state: the execution context, the byName map as an
insertion-ordered association list (mirroring JavaScript Map iteration), and
whether a gdb backend is attached. -/
structure Store where
  execContext : ExecContext
  byName : List (String × SimplifiedVarObjType)
  hasGdb : Bool
deriving DecidableEq

/-- JavaScript Map.prototype.set on an insertion-ordered association list:
an existing key is updated in place, a new key is appended. -/
def jsMapSet {α : Type} (l : List (String × α)) (k : String) (v : α) : List (String × α) :=
  if l.any (fun p => p.1 == k) then
    l.map (fun p => if p.1 == k then (k, v) else p)
  else l ++ [(k, v)]

/-- JavaScript Map.prototype.get. -/
def jsMapGet {α : Type} (l : List (String × α)) (k : String) : Option α :=
  (l.find? (fun p => p.1 == k)).map Prod.snd

/-- JavaScript string-or-undefined falsiness: undefined and the empty string
are falsy. -/
def jsFalsyStr : Option String → Bool
  | none => true
  | some s => s == ""

/-- Backend commands issued by the store, by category: stack-frame queries
(getCurrentFunction), -stack-list-variables fetches, -var-update calls,
-var-create calls and -var-delete calls. -/
structure OpCounts where
  frameQueries : Nat := 0
  varFetches : Nat := 0
  varUpdates : Nat := 0
  varCreates : Nat := 0
  varDeletes : Nat := 0
deriving DecidableEq

def OpCounts.add (a b : OpCounts) : OpCounts :=
  ⟨a.frameQueries + b.frameQueries, a.varFetches + b.varFetches,
   a.varUpdates + b.varUpdates, a.varCreates + b.varCreates,
   a.varDeletes + b.varDeletes⟩

/-- VariableObjectStore.updateVarObj: store the new value; on a type change
also store the new type and child count. -/
def updateVarObj (vo : SimplifiedVarObjType) (ch : VarUpdateChanges) : SimplifiedVarObjType :=
  { vo with
    value := ch.value,
    type := if ch.type_changed == "true" then ch.new_type else vo.type,
    numchild := if ch.type_changed == "true" then ch.new_num_children else vo.numchild }

/-- The changelist application of VariableObjectStore.update(): each change is
applied to the matching stored object if it exists and is of local kind. -/
def applyChanges (byName : List (String × SimplifiedVarObjType))
    (changes : List VarUpdateChanges) : List (String × SimplifiedVarObjType) :=
  changes.foldl (fun bn ch =>
    match jsMapGet bn ch.name with
    | none => bn
    | some vo =>
      if vo.kind = VarKind.«local» then jsMapSet bn ch.name (updateVarObj vo ch) else bn)
    byName

/-- The local-kind values of the byName map, in insertion order. -/
def storeLocals (byName : List (String × SimplifiedVarObjType)) : List SimplifiedVarObjType :=
  (byName.map Prod.snd).filter (fun vo => vo.kind == VarKind.«local»)

/-- VariableObjectStore.threadIdChanged. -/
def threadIdChanged (st : Store) (threadId : FocusVal) : Bool :=
  match st.execContext.threadId with
  | none => true
  | some old =>
    match threadId with
    | .host t => FocusVal.host t != old
    | .device f =>
      match old with
      | .host _ => true
      | .device oldF => ¬ equalsCudaFocus (some f) (some oldF)

/-- The oldLocals map built inside validate: local-kind objects keyed by
their expression (the stack-local name). -/
def buildOldLocals (byName : List (String × SimplifiedVarObjType)) :
    List (String × SimplifiedVarObjType) :=
  byName.foldl (fun acc p =>
    if p.2.kind == VarKind.«local» then jsMapSet acc p.2.expression p.2 else acc) []

/-- The shape comparison of validate: the fetched list matches the stored
local objects when the counts agree and every fetched name is stored with the
same type.  Returns true when the shape is unchanged (the source sets
shouldInvalidate to the negation). -/
def localsShapeUnchanged (st : Store) (stackLocalsList : List MIVariableInfo) : Bool :=
  let oldLocals := buildOldLocals st.byName
  if oldLocals.length != stackLocalsList.length then false
  else stackLocalsList.all (fun sl =>
    match jsMapGet oldLocals sl.name with
    | some vo => vo.type == sl.type
    | none => false)

/-- VariableObjectStore.createLocals on the byName map: one -var-create per
fetched stack local, responses supplied by the oracle list. -/
def createLocalsList (byName : List (String × SimplifiedVarObjType))
    (sls : List MIVariableInfo) (creates : List MIVarCreateResponse) :
    List (String × SimplifiedVarObjType) :=
  sls.enum.foldl (fun bn p =>
    let resp := creates.getD p.1 ⟨"", "", "", ""⟩
    jsMapSet bn resp.name ⟨resp.name, p.2.name, resp.numchild, resp.value, resp.type,
      VarKind.«local»⟩) byName

/-- Oracle data consumed by one getLocals call: the resolved function name,
the -stack-list-variables response, the -var-update changelist and the
-var-create responses. -/
structure LocalsOracle where
  funcName : Option String
  stackLocals : List MIVariableInfo
  changes : List VarUpdateChanges
  creates : List MIVarCreateResponse
deriving DecidableEq

/-- Outcome of one validate run. -/
structure ValidateRun where
  store : Store
  counts : OpCounts
  invalidated : Bool
deriving DecidableEq

/-- The part of VariableObjectStore.validate from the -stack-list-variables
fetch onward: complete the shouldInvalidate decision against the fetched
shape (the shape is only consulted when not already decided, which the
short-circuiting disjunction mirrors), then either run the cheap update or
clear all local objects, create fresh ones and reset the execution
context. -/
def validateFetch (st : Store) (tid : FocusVal) (fid : Int) (funcName : Option String)
    (o : LocalsOracle) (shouldInvalidate0 : Bool) : ValidateRun :=
  let sls := o.stackLocals
  let shouldInvalidate := shouldInvalidate0 || !(localsShapeUnchanged st sls)
  if shouldInvalidate then
    ⟨{ st with
        byName := createLocalsList
          (st.byName.filter (fun p => ¬ (p.2.kind == VarKind.«local»))) sls o.creates,
        execContext := ⟨some tid, some fid, some false, funcName⟩ },
     { varFetches := 1, varCreates := sls.length,
       varDeletes := (storeLocals st.byName).length }, true⟩
  else
    ⟨{ st with byName := applyChanges st.byName o.changes },
     { varFetches := 1, varUpdates := 1 }, false⟩

/-- VariableObjectStore.validate.  Decision order as in the source: no-op
without a gdb backend; invalidate when focus (threadId) or frame id changed;
else short-circuit to the cheap update when not resumed since the last
validate; else decide by the resolved function name; then fetch the stack
locals and finish in validateFetch. -/
def validateRun (st : Store) (tid : FocusVal) (fid : Int) (funcName : Option String)
    (o : LocalsOracle) : ValidateRun :=
  if st.hasGdb = false then ⟨st, {}, false⟩
  else if threadIdChanged st tid || (st.execContext.frameId != some fid) then
    validateFetch st tid fid funcName o true
  else if st.execContext.resumed == some false then
    ⟨{ st with byName := applyChanges st.byName o.changes }, { varUpdates := 1 }, false⟩
  else
    validateFetch st tid fid funcName o
      (jsFalsyStr funcName || jsFalsyStr st.execContext.functionName ||
        (funcName != st.execContext.functionName))

/-- Outcome of one getLocals call. -/
structure GetLocalsRun where
  store : Store
  locals : List SimplifiedVarObjType
  counts : OpCounts
  invalidated : Bool
deriving DecidableEq

/-- VariableObjectStore.getLocals: an undefined focus returns immediately;
otherwise resolve the current function (one stack-frame query), validate, and
return the local-kind objects. -/
def getLocalsRun (st : Store) (focus : Option FocusVal) (frameId : Int)
    (o : LocalsOracle) : GetLocalsRun :=
  match focus with
  | none => ⟨st, [], {}, false⟩
  | some f =>
    let v := validateRun st f frameId o.funcName o
    ⟨v.store, storeLocals v.store.byName,
     { v.counts with frameQueries := v.counts.frameQueries + 1 }, v.invalidated⟩

/-- C10: getLocals with an undefined focus returns the empty list at once,
issues no backend command of any category, and leaves the store (execution
context and stored variable objects) untouched. -/
theorem getLocals_undefined_focus (st : Store) (frameId : Int) (o : LocalsOracle) :
    (getLocalsRun st none frameId o).locals = [] ∧
    (getLocalsRun st none frameId o).store = st ∧
    (getLocalsRun st none frameId o).counts = {} :=
  ⟨rfl, rfl, rfl⟩

/-- Example store: one materialized local x of type int, context at host
thread 1, frame 0, not resumed. -/
def storeCheap : Store :=
  { execContext := ⟨some (.host 1), some 0, some false, some "main"⟩,
    byName := [("var1", ⟨"var1", "x", "0", "42", "int", VarKind.«local»⟩)],
    hasGdb := true }

/-- Oracle for a locals request against storeCheap with an unchanged shape. -/
def oracleCheap : LocalsOracle := ⟨some "main", [⟨"x", "int"⟩], [], []⟩

/-- Counterexample for C2: a validation pass whose context is unchanged and
whose store has not been resumed performs zero stack-locals fetches — the
cheap path returns before the fetch, so the fetch is not unconditional. -/
theorem validate_cheap_no_fetch_counterexample :
    (validateRun storeCheap (.host 1) 0 (some "main") oracleCheap).counts.varFetches = 0 ∧
    (validateRun storeCheap (.host 1) 0 (some "main") oracleCheap).counts.varFetches ≠ 1 :=
  ⟨rfl, by decide⟩

/-- validateFetch always performs exactly one stack-locals fetch. -/
theorem validateFetch_fetches (st : Store) (tid : FocusVal) (fid : Int)
    (fn : Option String) (o : LocalsOracle) (b : Bool) :
    (validateFetch st tid fid fn o b).counts.varFetches = 1 := by
  simp only [validateFetch]
  split <;> rfl

/-- C2 (amended): the stack-locals fetch happens on every validation pass
except the cheap short-circuit (context unchanged and not resumed since the
last validate), which returns after update() without fetching; every other
pass fetches exactly once, even when invalidation is already decided. -/
theorem validate_fetch_unless_short_circuit
    (st : Store) (tid : FocusVal) (fid : Int) (fn : Option String) (o : LocalsOracle)
    (hgdb : st.hasGdb = true) :
    (validateRun st tid fid fn o).counts.varFetches =
      if threadIdChanged st tid = false ∧ st.execContext.frameId = some fid ∧
          st.execContext.resumed = some false then 0 else 1 := by
  unfold validateRun
  rw [if_neg (by rw [hgdb]; simp)]
  split
  · next hcond =>
    rw [validateFetch_fetches]
    rw [if_neg]
    intro ⟨ha, hb, _⟩
    rw [ha, hb] at hcond
    simp at hcond
  · next hcond =>
    simp only [Bool.or_eq_true, not_or, Bool.not_eq_true, bne_eq_false_iff_eq] at hcond
    obtain ⟨ha, hb⟩ := hcond
    split
    · next hres =>
      rw [beq_iff_eq] at hres
      rw [if_pos ⟨ha, hb, hres⟩]
    · next hres =>
      rw [validateFetch_fetches]
      rw [if_neg]
      intro ⟨_, _, hc⟩
      exact hres (by rw [hc]; simp)

/-- Witness for C2 (amended): against storeCheap, a request with a changed
thread id pays the fetch. -/
theorem validate_fetch_unless_short_circuit_witness :
    (validateRun storeCheap (.host 2) 0 (some "main") oracleCheap).counts.varFetches =
      if threadIdChanged storeCheap (.host 2) = false ∧
          storeCheap.execContext.frameId = some 0 ∧
          storeCheap.execContext.resumed = some false then 0 else 1 :=
  validate_fetch_unless_short_circuit storeCheap (.host 2) 0 (some "main") oracleCheap rfl

/-- A stored thread id never counts as changed against itself. -/
theorem threadIdChanged_self (st : Store) (f : FocusVal)
    (h : st.execContext.threadId = some f) : threadIdChanged st f = false := by
  unfold threadIdChanged
  rw [h]
  cases f with
  | host t => simp
  | device cf => simp [equalsCudaFocus]

/-- The cheap path of validate: unchanged context and not resumed runs only
the update, leaving the execution context unchanged. -/
theorem validate_cheap (st : Store) (f : FocusVal) (fid : Int) (fn : Option String)
    (o : LocalsOracle)
    (hgdb : st.hasGdb = true)
    (ht : st.execContext.threadId = some f)
    (hf : st.execContext.frameId = some fid)
    (hres : st.execContext.resumed = some false) :
    validateRun st f fid fn o =
      ⟨{ st with byName := applyChanges st.byName o.changes }, { varUpdates := 1 }, false⟩ := by
  unfold validateRun
  rw [if_neg (by rw [hgdb]; simp)]
  rw [if_neg (by rw [threadIdChanged_self st f ht, hf]; simp)]
  rw [if_pos (by rw [hres]; simp)]

/-- The cheap path at the getLocals level. -/
theorem getLocals_cheap (st : Store) (f : FocusVal) (fid : Int) (o : LocalsOracle)
    (hgdb : st.hasGdb = true)
    (ht : st.execContext.threadId = some f)
    (hf : st.execContext.frameId = some fid)
    (hres : st.execContext.resumed = some false) :
    getLocalsRun st (some f) fid o =
      ⟨{ st with byName := applyChanges st.byName o.changes },
       storeLocals (applyChanges st.byName o.changes),
       { frameQueries := 1, varUpdates := 1 }, false⟩ := by
  simp only [getLocalsRun]
  rw [validate_cheap st f fid o.funcName o hgdb ht hf hres]

/-- An invalidating validateFetch resets the execution context to the request
context with resumed := false, and preserves the backend attachment. -/
theorem validateFetch_invalidated_context (st : Store) (tid : FocusVal) (fid : Int)
    (fn : Option String) (o : LocalsOracle) (b : Bool)
    (hinv : (validateFetch st tid fid fn o b).invalidated = true) :
    (validateFetch st tid fid fn o b).store.execContext =
      ⟨some tid, some fid, some false, fn⟩ ∧
    (validateFetch st tid fid fn o b).store.hasGdb = st.hasGdb := by
  simp only [validateFetch] at hinv ⊢
  by_cases h : (b || !(localsShapeUnchanged st o.stackLocals)) = true
  · rw [if_pos h]
    exact ⟨rfl, rfl⟩
  · rw [if_neg h] at hinv
    exact absurd hinv (by simp)

/-- An invalidating validate run resets the execution context to the request
context with resumed := false, and preserves the backend attachment. -/
theorem validate_invalidated_context (st : Store) (tid : FocusVal) (fid : Int)
    (fn : Option String) (o : LocalsOracle)
    (hinv : (validateRun st tid fid fn o).invalidated = true) :
    (validateRun st tid fid fn o).store.execContext = ⟨some tid, some fid, some false, fn⟩ ∧
    (validateRun st tid fid fn o).store.hasGdb = st.hasGdb := by
  unfold validateRun at hinv ⊢
  by_cases hg : st.hasGdb = false
  · rw [if_pos hg] at hinv
    exact absurd hinv (by simp)
  · rw [if_neg hg] at hinv ⊢
    by_cases hc : (threadIdChanged st tid || (st.execContext.frameId != some fid)) = true
    · rw [if_pos hc] at hinv ⊢
      exact validateFetch_invalidated_context st tid fid fn o true hinv
    · rw [if_neg hc] at hinv ⊢
      by_cases hr : (st.execContext.resumed == some false) = true
      · rw [if_pos hr] at hinv
        exact absurd hinv (by simp)
      · rw [if_neg hr] at hinv ⊢
        exact validateFetch_invalidated_context st tid fid fn o _ hinv

/-- One locals request for the request-sequence semantics. -/
structure LocalsReq where
  focus : FocusVal
  frameId : Int
  oracle : LocalsOracle

/-- Run a sequence of locals requests, accumulating backend command counts. -/
def runSeq : Store → List LocalsReq → Store × OpCounts
  | st, [] => (st, {})
  | st, r :: rs =>
    let g := getLocalsRun st (some r.focus) r.frameId r.oracle
    let rest := runSeq g.store rs
    (rest.1, OpCounts.add g.counts rest.2)

/-- The conditions of claim C1 for one request against the current store:
focus and frame id equal the stored execution context, the resolved function
name equals the stored one, and the fetched stack-locals list has the same
names and types as the stored local objects. -/
def stepOk (st : Store) (r : LocalsReq) : Prop :=
  st.execContext.threadId = some r.focus ∧
  st.execContext.frameId = some r.frameId ∧
  r.oracle.funcName = st.execContext.functionName ∧
  localsShapeUnchanged st r.oracle.stackLocals = true

/-- The conditions of claim C1 along a whole request sequence. -/
def SeqOk : Store → List LocalsReq → Prop
  | _, [] => True
  | st, r :: rs =>
    stepOk st r ∧ SeqOk (getLocalsRun st (some r.focus) r.frameId r.oracle).store rs

/-- Requests whose context matches a not-resumed store only ever run the
cheap update: no creates, no deletes, one update per request. -/
theorem seq_cheap_counts : ∀ (reqs : List LocalsReq) (st : Store),
    st.hasGdb = true → st.execContext.resumed = some false →
    SeqOk st reqs →
    (runSeq st reqs).2.varCreates = 0 ∧ (runSeq st reqs).2.varDeletes = 0 ∧
    (runSeq st reqs).2.varUpdates = reqs.length := by
  intro reqs
  induction reqs with
  | nil => intro st _ _ _; exact ⟨rfl, rfl, rfl⟩
  | cons r rs ih =>
    intro st hgdb hres hseq
    obtain ⟨⟨ht, hf, _, _⟩, hseq2⟩ := hseq
    have hch := getLocals_cheap st r.focus r.frameId r.oracle hgdb ht hf hres
    rw [hch] at hseq2
    have hrec := ih { st with byName := applyChanges st.byName r.oracle.changes }
      hgdb hres hseq2
    unfold runSeq
    rw [hch]
    refine ⟨?_, ?_, ?_⟩
    · simpa [OpCounts.add] using hrec.1
    · simpa [OpCounts.add] using hrec.2.1
    · simp only [OpCounts.add, List.length_cons]
      rw [hrec.2.2]
      omega

/-- C1: after a first materializing locals request (one that invalidated and
recreated the local objects), every following sequence of locals requests
whose focus, frame id and resolved function name equal the stored execution
context and whose fetched stack-locals shape matches the stored local objects
performs zero variable-object creates and zero deletes — each request runs
only the cheap update path. -/
theorem varStore_no_recreate_after_materialization
    (s0 : Store) (f : FocusVal) (fid : Int) (o : LocalsOracle) (reqs : List LocalsReq)
    (hgdb : s0.hasGdb = true)
    (hmat : (getLocalsRun s0 (some f) fid o).invalidated = true)
    (hseq : SeqOk (getLocalsRun s0 (some f) fid o).store reqs) :
    (runSeq (getLocalsRun s0 (some f) fid o).store reqs).2.varCreates = 0 ∧
    (runSeq (getLocalsRun s0 (some f) fid o).store reqs).2.varDeletes = 0 ∧
    (runSeq (getLocalsRun s0 (some f) fid o).store reqs).2.varUpdates = reqs.length := by
  have h1 : (validateRun s0 f fid o.funcName o).invalidated = true := hmat
  have hctx := validate_invalidated_context s0 f fid o.funcName o h1
  have hst : (getLocalsRun s0 (some f) fid o).store = (validateRun s0 f fid o.funcName o).store :=
    rfl
  apply seq_cheap_counts reqs _ ?_ ?_ hseq
  · rw [hst, hctx.2, hgdb]
  · rw [hst, hctx.1]

/-- A fresh store with a backend and nothing materialized. -/
def matStore : Store := ⟨{}, [], true⟩

/-- Oracle of the materializing first request: function kern, one local x of
type int, created as backend object var1. -/
def matOracle : LocalsOracle := ⟨some "kern", [⟨"x", "int"⟩], [], [⟨"var1", "0", "7", "int"⟩]⟩

/-- Oracle of the follow-up request: same function, same shape. -/
def followOracle : LocalsOracle := ⟨some "kern", [⟨"x", "int"⟩], [], []⟩

/-- Witness for C1: one materializing request on a fresh store followed by a
matching request performs zero creates and deletes on the follow-up. -/
theorem varStore_no_recreate_witness :
    (runSeq (getLocalsRun matStore (some (.host 1)) 0 matOracle).store
        [⟨.host 1, 0, followOracle⟩]).2.varCreates = 0 ∧
    (runSeq (getLocalsRun matStore (some (.host 1)) 0 matOracle).store
        [⟨.host 1, 0, followOracle⟩]).2.varDeletes = 0 ∧
    (runSeq (getLocalsRun matStore (some (.host 1)) 0 matOracle).store
        [⟨.host 1, 0, followOracle⟩]).2.varUpdates = 1 :=
  varStore_no_recreate_after_materialization matStore (.host 1) 0 matOracle
    [⟨.host 1, 0, followOracle⟩] rfl rfl ⟨⟨rfl, rfl, rfl, rfl⟩, trivial⟩

/-- A disassembled instruction as carried in the protocol response. -/
structure DisassembledInstruction where
  address : String
  instruction : String
  instructionBytes : Option String
deriving DecidableEq

/-- CudaGdbSession.invalidAddress. -/
def invalidAddress : String := "??"

/-- CudaGdbSession.dummyInstruction: the sentinel padding instruction; it
carries no instructionBytes. -/
def dummyInstruction : DisassembledInstruction := ⟨invalidAddress, "??", none⟩

/-- The arguments of a disassemble request that the early checks consult. -/
structure DisassembleArgs where
  memoryReference : String
  offset : Option Int
  instructionOffset : Option Int
  instructionCount : Nat
  excludeRawOpcodes : Bool
deriving DecidableEq

/-- Outcome of a disassemble request: the response (error message or
instruction list) and the number of backend disassembly commands issued. -/
structure DisassembleRun where
  response : Except String (List DisassembledInstruction)
  backendCalls : Nat

/-- JavaScript truthiness of an optional number (undefined and 0 are
falsy). -/
def jsTruthyNum : Option Int → Bool
  | none => false
  | some n => n != 0

/-- The head of CudaGdbSession.disassembleRequest: force excludeRawOpcodes
under device focus, reject a truthy byte offset, and short-circuit the
sentinel reference address to a fully padded response.  The remainder of the
algorithm (initial one-byte disassembly onward, source lines 1988-2206) only
runs past these checks and is abstracted as the continuation rest; on the
short-circuit paths it is never invoked, so no backend disassembly command is
issued there. -/
def disassembleRequest (cudaThread : CudaThreadState)
    (rest : DisassembleArgs → DisassembleRun) (args : DisassembleArgs) : DisassembleRun :=
  let args1 := if CudaThread.hasFocus cudaThread then
    { args with excludeRawOpcodes := true } else args
  if jsTruthyNum args1.offset then
    ⟨.error "Unsupported argument \"Offset\"", 0⟩
  else if args1.memoryReference = invalidAddress then
    ⟨.ok (List.replicate args1.instructionCount dummyInstruction), 0⟩
  else rest args1

/-- Counterexample for C7: a disassemble request whose memory reference is
the sentinel address but whose byte offset is nonzero is rejected with an
error response before the sentinel check, so it does not receive
instructionCount sentinel instructions. -/
theorem disassemble_sentinel_offset_counterexample :
    (disassembleRequest ⟨none⟩ (fun _ => ⟨.ok [], 0⟩)
        ⟨"??", some 1, none, 3, true⟩).response = .error "Unsupported argument \"Offset\"" ∧
    (disassembleRequest ⟨none⟩ (fun _ => ⟨.ok [], 0⟩)
        ⟨"??", some 1, none, 3, true⟩).response ≠
      .ok (List.replicate 3 dummyInstruction) :=
  ⟨rfl, fun h => Except.noConfusion h⟩

/-- C7 (amended): a disassemble request whose memory reference is the
sentinel address and whose byte offset is absent or zero receives exactly
instructionCount copies of the sentinel instruction, no backend disassembly
command is issued, and no returned instruction carries raw opcode bytes
(the sentinel never has instructionBytes, with or without
excludeRawOpcodes). -/
theorem disassemble_sentinel_padding
    (ct : CudaThreadState) (rest : DisassembleArgs → DisassembleRun) (args : DisassembleArgs)
    (hoff : jsTruthyNum args.offset = false)
    (hmem : args.memoryReference = invalidAddress) :
    (disassembleRequest ct rest args).response =
      .ok (List.replicate args.instructionCount dummyInstruction) ∧
    (disassembleRequest ct rest args).backendCalls = 0 ∧
    (List.replicate args.instructionCount dummyInstruction).all
      (fun inst => inst.instructionBytes == none) = true := by
  have hfoc : CudaThread.hasFocus ct = false := rfl
  simp only [disassembleRequest, hfoc, Bool.false_eq_true, if_false]
  rw [if_neg (by rw [hoff]; simp)]
  rw [if_pos hmem]
  refine ⟨rfl, rfl, ?_⟩
  rw [List.all_eq_true]
  intro x hx
  rw [List.eq_of_mem_replicate hx]
  rfl

/-- Witness for C7 (amended): sentinel reference, no byte offset, four
instructions requested. -/
theorem disassemble_sentinel_padding_witness :
    (disassembleRequest ⟨none⟩ (fun _ => ⟨.ok [], 1⟩)
        ⟨"??", none, some (-2), 4, true⟩).response =
      .ok (List.replicate 4 dummyInstruction) ∧
    (disassembleRequest ⟨none⟩ (fun _ => ⟨.ok [], 1⟩)
        ⟨"??", none, some (-2), 4, true⟩).backendCalls = 0 ∧
    (List.replicate 4 dummyInstruction).all
      (fun inst => inst.instructionBytes == none) = true :=
  disassemble_sentinel_padding ⟨none⟩ (fun _ => ⟨.ok [], 1⟩)
    ⟨"??", none, some (-2), 4, true⟩ rfl rfl

/-- Hexadecimal digit test for JavaScript parseInt with radix 16. -/
def isHexDigitChar (c : Char) : Bool :=
  c.isDigit || ('a' ≤ c && c ≤ 'f') || ('A' ≤ c && c ≤ 'F')

/-- Numeric value of a digit character. -/
def hexDigitVal (c : Char) : Nat :=
  if c.isDigit then c.toNat - '0'.toNat
  else if 'a' ≤ c then c.toNat - 'a'.toNat + 10
  else c.toNat - 'A'.toNat + 10

/-- Value of a digit string in the given base. -/
def digitsToNat (base : Nat) (ds : List Char) : Nat :=
  ds.foldl (fun acc c => acc * base + hexDigitVal c) 0

/-- Longest digit prefix in the given base; none when there is no digit
(parseInt yields NaN then). -/
def jsParseIntCore (base : Nat) (digitOk : Char → Bool) (cs : List Char) : Option Nat :=
  let ds := cs.takeWhile digitOk
  if ds.isEmpty then none else some (digitsToNat base ds)

/-- JavaScript Number.parseInt with no radix argument, as applied to register
values: leading whitespace skipped, optional sign, 0x/0X prefix selects
base 16, otherwise base 10; the longest valid prefix is parsed; none models
NaN. -/
def jsParseInt (s : String) : Option Int :=
  let cs := s.toList.dropWhile (fun c => c == ' ' || c == '\t' || c == '\n' || c == '\r')
  let signed : Int × List Char :=
    match cs with
    | '-' :: rest => (-1, rest)
    | '+' :: rest => (1, rest)
    | _ => (1, cs)
  match signed.2 with
  | '0' :: 'x' :: rest => (jsParseIntCore 16 isHexDigitChar rest).map (fun n => signed.1 * n)
  | '0' :: 'X' :: rest => (jsParseIntCore 16 isHexDigitChar rest).map (fun n => signed.1 * n)
  | _ => (jsParseIntCore 10 Char.isDigit signed.2).map (fun n => signed.1 * n)

/-- JavaScript Number.prototype.toString(16) on a possibly-NaN number; NaN
prints as the string NaN. -/
def jsNumberToHexString : Option Int → String
  | none => "NaN"
  | some v =>
    if v < 0 then "-" ++ String.mk (Nat.toDigits 16 (-v).toNat)
    else String.mk (Nat.toDigits 16 v.toNat)

/-- JavaScript Number.prototype.toString() on a possibly-NaN number. -/
def jsNumberToString : Option Int → String
  | none => "NaN"
  | some v => toString v

/-- toFixedHex from the source: hex representation, returned untouched when
it is NaN, otherwise 0x-prefixed and left-padded with zeros up to width. -/
def toFixedHex (value : Option Int) (width : Nat) : String :=
  let hexStr := jsNumberToHexString value
  if hexStr == "NaN" then hexStr
  else "0x" ++ String.mk (List.replicate (width - hexStr.length) '0') ++ hexStr

/-- A register of a device register group (ordinal into the backend's
register list plus display name). -/
structure Register where
  ordinal : Nat
  name : String
deriving DecidableEq

/-- A device register group as consulted by registersRequest. -/
structure RegisterGroup where
  groupName : String
  isPredicate : Bool
  isHidden : Bool
  registers : List Register

/-- A protocol variable (name/value pair) produced for a register. -/
structure Variable where
  name : String
  value : String
deriving DecidableEq

/-- formatRegister from the source: fixed hex at width 8 (the group argument
is unused there). -/
def formatRegister (value : Option Int) (_registerGroup : RegisterGroup) : String :=
  toFixedHex value 8

/-- The body of the per-register forEach of registersRequest (source lines
1743-1759): skip registers with a falsy raw value; push the raw string when
it does not parse as a number; then push the decimal rendering for predicate
groups or the fixed-hex rendering otherwise. -/
def renderRegisterStep (group : RegisterGroup) (valuesMap : Nat → Option String)
    (acc : List Variable) (reg : Register) : List Variable :=
  match valuesMap reg.ordinal with
  | none => acc
  | some raw =>
    if raw == "" then acc
    else
      let numericalValue := jsParseInt raw
      let acc2 := if numericalValue = none then acc ++ [⟨reg.name, raw⟩] else acc
      if group.isPredicate = true then
        acc2 ++ [⟨reg.name, jsNumberToString numericalValue⟩]
      else
        acc2 ++ [⟨reg.name, formatRegister numericalValue group⟩]

/-- The value-population loop of registersRequest over one register group. -/
def renderRegisters (group : RegisterGroup) (valuesMap : Nat → Option String) :
    List Variable :=
  group.registers.foldl (renderRegisterStep group valuesMap) []

/-- What one register contributes, as an append to the accumulator. -/
theorem renderRegisterStep_characterization (group : RegisterGroup)
    (valuesMap : Nat → Option String) (acc : List Variable) (reg : Register) :
    renderRegisterStep group valuesMap acc reg =
      acc ++ (match valuesMap reg.ordinal with
        | none => []
        | some raw =>
          if raw == "" then []
          else
            match jsParseInt raw with
            | some v =>
              [⟨reg.name, if group.isPredicate then toString v else toFixedHex (some v) 8⟩]
            | none => [⟨reg.name, raw⟩, ⟨reg.name, "NaN"⟩]) := by
  unfold renderRegisterStep
  cases hv : valuesMap reg.ordinal with
  | none => simp
  | some raw =>
    by_cases hraw : (raw == "") = true
    · simp [hraw]
    · cases hp : jsParseInt raw with
      | some v =>
        cases hpred : group.isPredicate <;>
          simp [hraw, hp, jsNumberToString, formatRegister, hpred]
      | none =>
        cases hpred : group.isPredicate <;>
          simp [hraw, hp, jsNumberToString, formatRegister, toFixedHex,
            jsNumberToHexString, hpred, List.append_assoc]

/-- The loop in accumulator-passing form equals a flat map. -/
theorem renderRegisters_flatMap_aux (group : RegisterGroup)
    (valuesMap : Nat → Option String) :
    ∀ (regs : List Register) (acc : List Variable),
      regs.foldl (renderRegisterStep group valuesMap) acc =
        acc ++ regs.flatMap (fun reg =>
          match valuesMap reg.ordinal with
          | none => []
          | some raw =>
            if raw == "" then []
            else
              match jsParseInt raw with
              | some v =>
                [⟨reg.name, if group.isPredicate then toString v else toFixedHex (some v) 8⟩]
              | none => [⟨reg.name, raw⟩, ⟨reg.name, "NaN"⟩]) := by
  intro regs
  induction regs with
  | nil => intro acc; simp
  | cons reg rs ih =>
    intro acc
    rw [List.foldl_cons, ih, renderRegisterStep_characterization, List.flatMap_cons,
      List.append_assoc]

/-- C9 (amended): for each register of the group, a numeric raw value is
rendered as its decimal string in predicate groups and as its hexadecimal
string zero-padded to 8 digits otherwise; a raw value that does not parse as
a number contributes two variables — the raw string passed through
unformatted, followed by a second variable rendering the NaN value (the
string NaN in either formatting path); falsy raw values are skipped. -/
theorem registersRequest_value_formatting (group : RegisterGroup)
    (valuesMap : Nat → Option String) :
    renderRegisters group valuesMap =
      group.registers.flatMap (fun reg =>
        match valuesMap reg.ordinal with
        | none => []
        | some raw =>
          if raw == "" then []
          else
            match jsParseInt raw with
            | some v =>
              [⟨reg.name, if group.isPredicate then toString v else toFixedHex (some v) 8⟩]
            | none => [⟨reg.name, raw⟩, ⟨reg.name, "NaN"⟩]) := by
  unfold renderRegisters
  rw [renderRegisters_flatMap_aux]
  rfl

/-- Example non-predicate register group with a single register R0. -/
def regGroupEx : RegisterGroup := ⟨"R", false, false, [⟨0, "R0"⟩]⟩

/-- Counterexample for C9: a register whose raw value does not parse as a
number contributes two variables (the raw string and a NaN rendering), not
exactly one. -/
theorem register_nonnumeric_counterexample :
    renderRegisters regGroupEx (fun i => if i = 0 then some "hello" else none) =
      [⟨"R0", "hello"⟩, ⟨"R0", "NaN"⟩] ∧
    (renderRegisters regGroupEx (fun i => if i = 0 then some "hello" else none)).length ≠ 1 :=
  ⟨rfl, by decide⟩

end CudaGdb
